import Mathlib

/-!
Verification of the `FutureCollection` registry from
`flask_executor/futures.py`.

The Python class keeps an `OrderedDict` from caller-supplied keys to
future handles.  We embed the ordered dictionary as an association list
in insertion order (head = oldest entry), keys generic with decidable
equality, handles opaque values.  Raising an exception is modelled by
returning the error alongside the (unchanged) state; the `None` sentinel
returned for an absent key is modelled by `Option`/`InvokeResult.sentinel`.
-/

namespace FlaskExecutor

/-- The `ValueError` that `add` raises when the key already exists. -/
inductive DuplicateKeyError where
  | valueError
deriving DecidableEq, Repr

/-- What `getattr` can yield on a stored future: a bound method
(callable, possibly raising an error of type `ε`) or a plain attribute
value. -/
inductive Member (ε ρ : Type) where
  | callable (f : List ρ → Except ε ρ)
  | attr (v : ρ)

/-- Errors observable from the proxied call `__getattr__(attr)(key, args)`:
`attributeError` is Python's `AttributeError` raised by `getattr` when the
future has no such member; `raised e` is a failure the invoked method
itself signals, propagated unchanged. -/
inductive InvokeError (ε : Type) where
  | attributeError
  | raised (e : ε)
deriving DecidableEq, Repr

/-- Result of a proxied call: `sentinel` is the `None` returned when the
key is absent, `val r` a value produced from the stored future. -/
inductive InvokeResult (ρ : Type) where
  | sentinel
  | val (r : ρ)
deriving DecidableEq, Repr

/-- Lookup in an association list: value of the first pair whose key
matches (`OrderedDict` indexing; keys are unique in reachable states). -/
def lookupKey [DecidableEq K] : List (K × V) → K → Option V
  | [], _ => none
  | p :: t, k => if p.1 = k then some p.2 else lookupKey t k

/-- Key membership, Python's `key in dict`. -/
def memKey [DecidableEq K] : List (K × V) → K → Bool
  | [], _ => false
  | p :: t, k => p.1 = k || memKey t k

/-- Remove the first pair with the given key (`dict.pop`'s removal). -/
def eraseKey [DecidableEq K] : List (K × V) → K → List (K × V)
  | [], _ => []
  | p :: t, k => if p.1 = k then t else p :: eraseKey t k

/-- Value membership, Python's `future in dict.values()`. -/
def containsVal [DecidableEq V] : List (K × V) → V → Bool
  | [], _ => false
  | p :: t, v => p.2 = v || containsVal t v

/-- The eviction loop `while len(futures) > n: futures.popitem(last=False)`:
repeatedly drop the oldest (front) entry while the length exceeds `n`. -/
def popOldestWhile : List α → Nat → List α
  | [], _ => []
  | a :: t, n => if t.length + 1 > n then popOldestWhile t n else a :: t

/-- State of a `FutureCollection`: optional bound `max_length` and the
ordered mapping `futures` (head = oldest insertion). -/
structure FutureCollection (K V : Type) where
  max_length : Option Nat
  futures : List (K × V)
deriving DecidableEq, Repr

namespace FutureCollection

/-- `__len__`. -/
def len (c : FutureCollection K V) : Nat :=
  c.futures.length

/-- `__contains__`: searches the stored values, not the keys. -/
def contains [DecidableEq V] (c : FutureCollection K V) (future : V) : Bool :=
  containsVal c.futures future

/-- `future_key in self._futures`. -/
def mem [DecidableEq K] (c : FutureCollection K V) (future_key : K) : Bool :=
  memKey c.futures future_key

/-- `self._futures[future_key]` as an `Option` (present keys only in use). -/
def lookup [DecidableEq K] (c : FutureCollection K V) (future_key : K) : Option V :=
  lookupKey c.futures future_key

/-- `_check_size_limit`: if a bound is set, evict oldest entries while
over it; with `max_length = none` do nothing. -/
def check_size_limit (c : FutureCollection K V) : FutureCollection K V :=
  match c.max_length with
  | none => c
  | some n => { c with futures := popOldestWhile c.futures n }

/-- `add`: raise `ValueError` (state untouched) on a duplicate key,
otherwise append the new entry at the end and run `_check_size_limit`. -/
def add [DecidableEq K] (c : FutureCollection K V) (future_key : K) (future : V) :
    Option DuplicateKeyError × FutureCollection K V :=
  if c.mem future_key then
    (some DuplicateKeyError.valueError, c)
  else
    (none, check_size_limit { c with futures := c.futures ++ [(future_key, future)] })

/-- `pop`: `self._futures.pop(future_key, None)` — return the stored
future (or `none`) and remove the entry if present. -/
def pop [DecidableEq K] (c : FutureCollection K V) (future_key : K) :
    Option V × FutureCollection K V :=
  (c.lookup future_key, { c with futures := eraseKey c.futures future_key })

/-- The closure `_future_attr` produced by `__getattr__(attr)`: if the key
is absent return `None`; otherwise resolve `attr` on the stored future via
the ambient attribute table `getAttrFn` (Python's `getattr`, raising
`AttributeError` when absent), call it when callable — propagating any
failure unchanged — and return plain attributes directly.  The absent-key
test `future_key not in self._futures` and the subsequent indexing are the
single `lookup` match (they agree: `mem` is true iff `lookup` is `some`). -/
def future_attr [DecidableEq K] (getAttrFn : V → String → Option (Member ε ρ))
    (c : FutureCollection K V) (attrName : String) (future_key : K) (args : List ρ) :
    Except (InvokeError ε) (InvokeResult ρ) :=
  match c.lookup future_key with
  | none => Except.ok InvokeResult.sentinel
  | some fut =>
    match getAttrFn fut attrName with
    | none => Except.error InvokeError.attributeError
    | some (Member.callable f) =>
      match f args with
      | Except.ok r => Except.ok (InvokeResult.val r)
      | Except.error e => Except.error (InvokeError.raised e)
    | some (Member.attr v) => Except.ok (InvokeResult.val v)

end FutureCollection

/-- A mutating registry operation. -/
inductive Op (K V : Type) where
  | add (k : K) (v : V)
  | pop (k : K)

/-- Apply one operation to the state (a raised `DuplicateKeyError` leaves
the state unchanged, as the exception is thrown before any mutation). -/
def FutureCollection.step [DecidableEq K] (c : FutureCollection K V) :
    Op K V → FutureCollection K V
  | Op.add k v => (c.add k v).2
  | Op.pop k => (c.pop k).2

/-- Run a sequence of operations. -/
def execOps [DecidableEq K] (c : FutureCollection K V) (ops : List (Op K V)) :
    FutureCollection K V :=
  ops.foldl FutureCollection.step c

/-- A concrete attribute table for sample futures (used to exercise the
proxy on explicit inputs): `result` is a method returning the stored
value, `cancel` a method that raises error `7`, `done` a plain attribute. -/
def sampleGetAttr : Nat → String → Option (Member Nat Nat)
  | fut, "result" => some (Member.callable fun _ => Except.ok fut)
  | _, "cancel" => some (Member.callable fun _ => Except.error 7)
  | _, "done" => some (Member.attr 1)
  | _, _ => none

/-! ### Helper lemmas about the list operations -/

theorem popOldestWhile_eq_drop (l : List α) (n : Nat) :
    popOldestWhile l n = l.drop (l.length - n) := by
  induction l with
  | nil => simp [popOldestWhile]
  | cons a t ih =>
    simp only [popOldestWhile, List.length_cons]
    by_cases h : t.length + 1 > n
    · rw [if_pos h, ih]
      have hs : t.length + 1 - n = (t.length - n) + 1 := by omega
      rw [hs, List.drop_succ_cons]
    · rw [if_neg h]
      have hz : t.length + 1 - n = 0 := by omega
      rw [hz, List.drop_zero]

theorem length_popOldestWhile (l : List α) (n : Nat) :
    (popOldestWhile l n).length = min l.length n := by
  rw [popOldestWhile_eq_drop, List.length_drop]
  omega

theorem lookupKey_eq_none_iff [DecidableEq K] (l : List (K × V)) (k : K) :
    lookupKey l k = none ↔ memKey l k = false := by
  induction l with
  | nil => simp [lookupKey, memKey]
  | cons p t ih =>
    by_cases h : p.1 = k
    · simp [lookupKey, memKey, h]
    · simp [lookupKey, memKey, h, ih]

theorem memKey_of_lookupKey_some [DecidableEq K] {l : List (K × V)} {k : K} {v : V}
    (h : lookupKey l k = some v) : memKey l k = true := by
  by_contra hc
  rw [Bool.not_eq_true, ← lookupKey_eq_none_iff] at hc
  rw [h] at hc
  exact Option.noConfusion hc

theorem memKey_append [DecidableEq K] (l l' : List (K × V)) (k : K) :
    memKey (l ++ l') k = (memKey l k || memKey l' k) := by
  induction l with
  | nil => simp [memKey]
  | cons p t ih => simp [memKey, ih, Bool.or_assoc]

theorem length_eraseKey_of_mem [DecidableEq K] {l : List (K × V)} {k : K}
    (h : memKey l k = true) : (eraseKey l k).length + 1 = l.length := by
  induction l with
  | nil => simp [memKey] at h
  | cons p t ih =>
    by_cases hp : p.1 = k
    · simp [eraseKey, hp]
    · simp only [memKey, Bool.or_eq_true, decide_eq_true_eq] at h
      rcases h with h | h
      · exact absurd h hp
      · simp [eraseKey, hp, ih h]

theorem length_eraseKey_le [DecidableEq K] (l : List (K × V)) (k : K) :
    (eraseKey l k).length ≤ l.length := by
  induction l with
  | nil => simp [eraseKey]
  | cons p t ih =>
    by_cases hp : p.1 = k
    · simp [eraseKey, hp]
    · simp only [eraseKey, hp, if_false, List.length_cons]
      omega

theorem mem_of_mem_eraseKey_nodup [DecidableEq K] {l : List (K × V)} {k : K}
    {p : K × V} (hnd : (l.map Prod.fst).Nodup) (hp : p ∈ eraseKey l k) :
    p ∈ l ∧ p.1 ≠ k := by
  induction l with
  | nil => simp [eraseKey] at hp
  | cons q t ih =>
    simp only [List.map_cons, List.nodup_cons] at hnd
    by_cases hq : q.1 = k
    · rw [eraseKey, if_pos hq] at hp
      refine ⟨List.mem_cons_of_mem _ hp, ?_⟩
      intro hk
      exact hnd.1 (by rw [hq, ← hk]; exact List.mem_map_of_mem Prod.fst hp)
    · rw [eraseKey, if_neg hq] at hp
      rcases List.mem_cons.mp hp with hpq | hpt
      · exact ⟨hpq ▸ List.mem_cons_self q t, hpq ▸ hq⟩
      · have := ih hnd.2 hpt
        exact ⟨List.mem_cons_of_mem _ this.1, this.2⟩

theorem exists_of_memKey [DecidableEq K] {l : List (K × V)} {k : K}
    (h : memKey l k = true) : ∃ p ∈ l, p.1 = k := by
  induction l with
  | nil => simp [memKey] at h
  | cons q t ih =>
    simp only [memKey, Bool.or_eq_true, decide_eq_true_eq] at h
    rcases h with h | h
    · exact ⟨q, List.mem_cons_self q t, h⟩
    · obtain ⟨p, hp, hpk⟩ := ih h
      exact ⟨p, List.mem_cons_of_mem _ hp, hpk⟩

theorem lookupKey_eraseKey_self [DecidableEq K] {l : List (K × V)} {k : K}
    (hnd : (l.map Prod.fst).Nodup) : lookupKey (eraseKey l k) k = none := by
  rw [lookupKey_eq_none_iff]
  by_contra hc
  rw [Bool.not_eq_false] at hc
  obtain ⟨p, hp, hpk⟩ := exists_of_memKey hc
  exact (mem_of_mem_eraseKey_nodup hnd hp).2 hpk

theorem containsVal_iff [DecidableEq V] (l : List (K × V)) (v : V) :
    containsVal l v = true ↔ ∃ p ∈ l, p.2 = v := by
  induction l with
  | nil => simp [containsVal]
  | cons p t ih =>
    simp only [containsVal, Bool.or_eq_true, decide_eq_true_eq, ih]
    constructor
    · rintro (hv | ⟨q, hq, hv⟩)
      · exact ⟨p, List.mem_cons_self p t, hv⟩
      · exact ⟨q, List.mem_cons_of_mem _ hq, hv⟩
    · rintro ⟨q, hq, hv⟩
      rcases List.mem_cons.mp hq with rfl | hqt
      · exact Or.inl hv
      · exact Or.inr ⟨q, hqt, hv⟩

/-! ### Registry-level lemmas -/

theorem check_size_limit_max_length (c : FutureCollection K V) :
    (FutureCollection.check_size_limit c).max_length = c.max_length := by
  cases c with
  | mk m l => cases m <;> simp [FutureCollection.check_size_limit]

theorem add_of_mem [DecidableEq K] (c : FutureCollection K V) (k : K) (v : V)
    (hk : c.mem k = true) :
    c.add k v = (some DuplicateKeyError.valueError, c) := by
  simp [FutureCollection.add, hk]

theorem add_of_not_mem [DecidableEq K] (c : FutureCollection K V) (k : K) (v : V)
    (hk : c.mem k = false) :
    c.add k v =
      (none, FutureCollection.check_size_limit { c with futures := c.futures ++ [(k, v)] }) := by
  simp [FutureCollection.add, hk]

theorem add_futures_bounded [DecidableEq K] (c : FutureCollection K V) (k : K) (v : V)
    (N : Nat) (hm : c.max_length = some N) (hk : c.mem k = false) :
    ((c.add k v).2).futures =
      (c.futures ++ [(k, v)]).drop (c.futures.length + 1 - N) := by
  rw [add_of_not_mem c k v hk]
  simp [FutureCollection.check_size_limit, hm, popOldestWhile_eq_drop]

theorem add_futures_unbounded [DecidableEq K] (c : FutureCollection K V) (k : K) (v : V)
    (hm : c.max_length = none) (hk : c.mem k = false) :
    (c.add k v).2 = { max_length := none, futures := c.futures ++ [(k, v)] } := by
  rw [add_of_not_mem c k v hk]
  cases c with
  | mk m l =>
    cases hm
    simp [FutureCollection.check_size_limit]

theorem step_preserves_bound [DecidableEq K] (N : Nat) (c : FutureCollection K V)
    (op : Op K V) (hm : c.max_length = some N) (hl : c.futures.length ≤ N) :
    (c.step op).max_length = some N ∧ (c.step op).futures.length ≤ N := by
  cases op with
  | add k v =>
    by_cases hk : c.mem k
    · rw [FutureCollection.step, add_of_mem c k v hk]
      exact ⟨hm, hl⟩
    · rw [FutureCollection.step, add_of_not_mem c k v (Bool.not_eq_true _ ▸ hk)]
      constructor
      · rw [check_size_limit_max_length]; exact hm
      · rw [show (FutureCollection.check_size_limit { c with futures := c.futures ++ [(k, v)] }).futures = popOldestWhile (c.futures ++ [(k, v)]) N by simp [FutureCollection.check_size_limit, hm]]
        rw [length_popOldestWhile]
        omega
  | pop k =>
    refine ⟨hm, ?_⟩
    exact le_trans (length_eraseKey_le c.futures k) hl

theorem execOps_preserves_bound [DecidableEq K] (N : Nat) (ops : List (Op K V))
    (c : FutureCollection K V) (hm : c.max_length = some N)
    (hl : c.futures.length ≤ N) :
    (execOps c ops).max_length = some N ∧ (execOps c ops).futures.length ≤ N := by
  induction ops generalizing c with
  | nil => exact ⟨hm, hl⟩
  | cons op t ih =>
    have h := step_preserves_bound N c op hm hl
    exact ih (c.step op) h.1 h.2

theorem execOps_adds_unbounded [DecidableEq K] (ps : List (K × V))
    (c : FutureCollection K V) (hm : c.max_length = none)
    (hfresh : ∀ p ∈ ps, memKey c.futures p.1 = false)
    (hnd : (ps.map Prod.fst).Nodup) :
    execOps c (ps.map fun p => Op.add p.1 p.2) =
      { max_length := none, futures := c.futures ++ ps } := by
  induction ps generalizing c with
  | nil =>
    cases c with
    | mk m l => cases hm; simp [execOps]
  | cons p t ih =>
    have hp : c.mem p.1 = false := hfresh p (List.mem_cons_self p t)
    have hstep : execOps c ((p :: t).map fun q => Op.add q.1 q.2) =
        execOps (c.step (Op.add p.1 p.2)) (t.map fun q => Op.add q.1 q.2) := rfl
    rw [hstep]
    have hc' : c.step (Op.add p.1 p.2) =
        { max_length := none, futures := c.futures ++ [p] } := by
      rw [FutureCollection.step]
      exact add_futures_unbounded c p.1 p.2 hm hp
    rw [hc']
    simp only [List.map_cons, List.nodup_cons] at hnd
    have hfresh' : ∀ q ∈ t, memKey (c.futures ++ [p]) q.1 = false := by
      intro q hq
      rw [memKey_append]
      have h1 : memKey c.futures q.1 = false := hfresh q (List.mem_cons_of_mem _ hq)
      have h2 : memKey [p] q.1 = false := by
        have : p.1 ≠ q.1 := fun he => hnd.1 (he ▸ List.mem_map_of_mem Prod.fst hq)
        simp [memKey, this]
      rw [h1, h2, Bool.or_self]
    rw [ih { max_length := none, futures := c.futures ++ [p] } rfl hfresh' hnd.2]
    simp

/-! ### Claim theorems -/

/-- C1: for every registry with `max_length = some N`, after any sequence
of `add`/`pop` operations starting from the empty registry the size is at
most `N`; moreover each successful `add` appends the new entry and then
evicts exactly the oldest entries from the front — the result is the
suffix `drop (len + 1 - N)` of the appended list, whose length is
`min (len + 1) N`, so eviction removes oldest-first and never more than
necessary, and the retained entries are the most recently added ones. -/
theorem C1_bound_maintenance_and_eviction (N : Nat) :
    (∀ ops : List (Op Nat Nat),
        (execOps { max_length := some N, futures := [] } ops).futures.length ≤ N)
    ∧ (∀ (c : FutureCollection Nat Nat) (k v : Nat), c.max_length = some N →
        c.mem k = false →
        ((c.add k v).2).futures =
            (c.futures ++ [(k, v)]).drop (c.futures.length + 1 - N)
        ∧ ((c.add k v).2).futures.length = min (c.futures.length + 1) N) := by
  constructor
  · intro ops
    exact (execOps_preserves_bound N ops _ rfl (by simp)).2
  · intro c k v hm hk
    refine ⟨add_futures_bounded c k v N hm hk, ?_⟩
    rw [add_futures_bounded c k v N hm hk, List.length_drop]
    simp only [List.length_append, List.length_cons, List.length_nil]
    omega

theorem C1_bound_maintenance_and_eviction_witness :
    (execOps { max_length := some 2, futures := [] }
        [Op.add 1 10, Op.add 2 20, Op.pop 1, Op.add 3 30, Op.add 4 40]).futures.length ≤ 2
    ∧ ((({ max_length := some 2, futures := [(1, 10), (2, 20)] } :
          FutureCollection Nat Nat).add 3 30).2).futures = [(2, 20), (3, 30)] := by
  refine ⟨(C1_bound_maintenance_and_eviction 2).1 _, ?_⟩
  have h := ((C1_bound_maintenance_and_eviction 2).2
      { max_length := some 2, futures := [(1, 10), (2, 20)] } 3 30 rfl (by decide)).1
  rw [h]
  rfl

/-- C2: adding a key that is already present raises the duplicate-key
`ValueError`, leaves the registry unchanged, and a subsequent `pop`
still returns the originally stored handle. -/
theorem C2_duplicate_add_rejected (c : FutureCollection Nat Nat) (k h h' : Nat)
    (hpres : c.lookup k = some h) :
    (c.add k h').1 = some DuplicateKeyError.valueError
    ∧ (c.add k h').2 = c
    ∧ (c.pop k).1 = some h := by
  have hm : c.mem k = true := memKey_of_lookupKey_some hpres
  rw [add_of_mem c k h' hm]
  exact ⟨rfl, rfl, hpres⟩

theorem C2_duplicate_add_rejected_witness :
    ((({ max_length := some 50, futures := [(1, 10)] } :
        FutureCollection Nat Nat).add 1 20).1 = some DuplicateKeyError.valueError)
    ∧ (({ max_length := some 50, futures := [(1, 10)] } :
        FutureCollection Nat Nat).add 1 20).2 =
        { max_length := some 50, futures := [(1, 10)] }
    ∧ (({ max_length := some 50, futures := [(1, 10)] } :
        FutureCollection Nat Nat).pop 1).1 = some 10 :=
  C2_duplicate_add_rejected { max_length := some 50, futures := [(1, 10)] } 1 10 20 (by decide)

/-- C3: on an absent key, `pop` returns the `None` sentinel and the
proxied call returns the sentinel for every member name and argument
list — neither raises. -/
theorem C3_absent_key_safety (c : FutureCollection Nat Nat) (k : Nat)
    (hk : c.mem k = false) :
    (c.pop k).1 = none
    ∧ ∀ (getAttrFn : Nat → String → Option (Member Nat Nat)) (attrName : String)
        (args : List Nat),
        FutureCollection.future_attr getAttrFn c attrName k args =
          Except.ok InvokeResult.sentinel := by
  have hl : c.lookup k = none := (lookupKey_eq_none_iff c.futures k).mpr hk
  refine ⟨hl, ?_⟩
  intro getAttrFn attrName args
  unfold FutureCollection.future_attr
  rw [hl]

theorem C3_absent_key_safety_witness :
    (({ max_length := some 50, futures := [(1, 10)] } :
        FutureCollection Nat Nat).pop 2).1 = none
    ∧ FutureCollection.future_attr sampleGetAttr
        ({ max_length := some 50, futures := [(1, 10)] } : FutureCollection Nat Nat)
        "result" 2 [] = Except.ok InvokeResult.sentinel :=
  ⟨(C3_absent_key_safety { max_length := some 50, futures := [(1, 10)] } 2 (by decide)).1,
   (C3_absent_key_safety { max_length := some 50, futures := [(1, 10)] } 2 (by decide)).2
      sampleGetAttr "result" []⟩

/-- C4: on a present key, when `getattr` finds no such member on the
stored future, the proxied call raises `AttributeError`. -/
theorem C4_unsupported_member (c : FutureCollection Nat Nat) (k fut : Nat)
    (getAttrFn : Nat → String → Option (Member Nat Nat)) (attrName : String)
    (args : List Nat) (h1 : c.lookup k = some fut)
    (h2 : getAttrFn fut attrName = none) :
    FutureCollection.future_attr getAttrFn c attrName k args =
      Except.error InvokeError.attributeError := by
  unfold FutureCollection.future_attr
  rw [h1]
  simp [h2]

theorem C4_unsupported_member_witness :
    FutureCollection.future_attr sampleGetAttr
      ({ max_length := some 50, futures := [(1, 10)] } : FutureCollection Nat Nat)
      "unknownOp" 1 [] = Except.error InvokeError.attributeError :=
  C4_unsupported_member { max_length := some 50, futures := [(1, 10)] } 1 10
    sampleGetAttr "unknownOp" [] (by decide) rfl

/-- C5: with `max_length = some 0` a successful `add` leaves the registry
empty (the just-inserted entry is evicted); in general a single `add`
evicts as many oldest entries as needed, leaving `min (len + 1) N`
entries even when the previous size already exceeded the bound. -/
theorem C5_zero_bound_and_multi_eviction (c : FutureCollection Nat Nat) (k v : Nat)
    (hk : c.mem k = false) :
    (c.max_length = some 0 → ((c.add k v).2).futures = [])
    ∧ ∀ N : Nat, c.max_length = some N →
        ((c.add k v).2).futures.length = min (c.futures.length + 1) N := by
  constructor
  · intro hm
    rw [add_futures_bounded c k v 0 hm hk]
    have hlen : c.futures.length + 1 - 0 = (c.futures ++ [(k, v)]).length := by simp
    rw [hlen, List.drop_length]
  · intro N hm
    rw [add_futures_bounded c k v N hm hk, List.length_drop]
    simp only [List.length_append, List.length_cons, List.length_nil]
    omega

theorem C5_zero_bound_and_multi_eviction_witness :
    ((({ max_length := some 0, futures := [(1, 10), (2, 20)] } :
        FutureCollection Nat Nat).add 3 30).2).futures = []
    ∧ ((({ max_length := some 0, futures := [(1, 10), (2, 20)] } :
        FutureCollection Nat Nat).add 3 30).2).futures.length = min (2 + 1) 0 := by
  have h := C5_zero_bound_and_multi_eviction
    { max_length := some 0, futures := [(1, 10), (2, 20)] } 3 30 (by decide)
  exact ⟨h.1 rfl, h.2 0 rfl⟩

/-- C6: popping a present key returns its handle (non-sentinel), shrinks
the registry by one entry, and afterwards both `pop` and the proxied call
on that key return the sentinel (keys are unique in reachable states,
expressed here as the `Nodup` hypothesis). -/
theorem C6_pop_removes (c : FutureCollection Nat Nat) (k h : Nat)
    (hnd : (c.futures.map Prod.fst).Nodup) (hl : c.lookup k = some h) :
    (c.pop k).1 = some h
    ∧ ((c.pop k).2).futures.length + 1 = c.futures.length
    ∧ (((c.pop k).2).pop k).1 = none
    ∧ ∀ (getAttrFn : Nat → String → Option (Member Nat Nat)) (attrName : String)
        (args : List Nat),
        FutureCollection.future_attr getAttrFn ((c.pop k).2) attrName k args =
          Except.ok InvokeResult.sentinel := by
  have hmem : memKey c.futures k = true := memKey_of_lookupKey_some hl
  have herase : lookupKey (eraseKey c.futures k) k = none := lookupKey_eraseKey_self hnd
  refine ⟨hl, length_eraseKey_of_mem hmem, herase, ?_⟩
  intro getAttrFn attrName args
  unfold FutureCollection.future_attr
  rw [show ((c.pop k).2).lookup k = none from herase]

theorem C6_pop_removes_witness :
    (({ max_length := some 50, futures := [(1, 10), (2, 20)] } :
        FutureCollection Nat Nat).pop 1).1 = some 10
    ∧ ((({ max_length := some 50, futures := [(1, 10), (2, 20)] } :
        FutureCollection Nat Nat).pop 1).2).futures.length + 1 = 2
    ∧ (((({ max_length := some 50, futures := [(1, 10), (2, 20)] } :
        FutureCollection Nat Nat).pop 1).2).pop 1).1 = none
    ∧ FutureCollection.future_attr sampleGetAttr
        ((({ max_length := some 50, futures := [(1, 10), (2, 20)] } :
            FutureCollection Nat Nat).pop 1).2) "result" 1 [] =
          Except.ok InvokeResult.sentinel := by
  have h := C6_pop_removes
    { max_length := some 50, futures := [(1, 10), (2, 20)] } 1 10 (by decide) (by decide)
  exact ⟨h.1, h.2.1, h.2.2.1, h.2.2.2 sampleGetAttr "result" []⟩

/-- C7: on a present key, the proxied call resolves the member on the
stored future: a callable member is invoked with the supplied arguments,
its result returned and any failure it signals propagated unchanged; a
plain attribute's value is returned directly. -/
theorem C7_delegation (c : FutureCollection Nat Nat) (k fut : Nat)
    (getAttrFn : Nat → String → Option (Member Nat Nat)) (attrName : String)
    (args : List Nat) (h1 : c.lookup k = some fut) :
    (∀ (f : List Nat → Except Nat Nat) (r : Nat),
        getAttrFn fut attrName = some (Member.callable f) → f args = Except.ok r →
        FutureCollection.future_attr getAttrFn c attrName k args =
          Except.ok (InvokeResult.val r))
    ∧ (∀ (f : List Nat → Except Nat Nat) (e : Nat),
        getAttrFn fut attrName = some (Member.callable f) → f args = Except.error e →
        FutureCollection.future_attr getAttrFn c attrName k args =
          Except.error (InvokeError.raised e))
    ∧ (∀ v : Nat, getAttrFn fut attrName = some (Member.attr v) →
        FutureCollection.future_attr getAttrFn c attrName k args =
          Except.ok (InvokeResult.val v)) := by
  refine ⟨?_, ?_, ?_⟩
  · intro f r hf hr
    unfold FutureCollection.future_attr
    rw [h1]
    simp [hf, hr]
  · intro f e hf he
    unfold FutureCollection.future_attr
    rw [h1]
    simp [hf, he]
  · intro v hv
    unfold FutureCollection.future_attr
    rw [h1]
    simp [hv]

theorem C7_delegation_witness :
    FutureCollection.future_attr sampleGetAttr
      ({ max_length := some 50, futures := [(1, 10)] } : FutureCollection Nat Nat)
      "result" 1 [] = Except.ok (InvokeResult.val 10)
    ∧ FutureCollection.future_attr sampleGetAttr
      ({ max_length := some 50, futures := [(1, 10)] } : FutureCollection Nat Nat)
      "cancel" 1 [] = Except.error (InvokeError.raised 7)
    ∧ FutureCollection.future_attr sampleGetAttr
      ({ max_length := some 50, futures := [(1, 10)] } : FutureCollection Nat Nat)
      "done" 1 [] = Except.ok (InvokeResult.val 1) := by
  refine ⟨?_, ?_, ?_⟩
  · exact (C7_delegation { max_length := some 50, futures := [(1, 10)] } 1 10
      sampleGetAttr "result" [] (by decide)).1 (fun _ => Except.ok 10) 10 rfl rfl
  · exact (C7_delegation { max_length := some 50, futures := [(1, 10)] } 1 10
      sampleGetAttr "cancel" [] (by decide)).2.1 (fun _ => Except.error 7) 7 rfl rfl
  · exact (C7_delegation { max_length := some 50, futures := [(1, 10)] } 1 10
      sampleGetAttr "done" [] (by decide)).2.2 1 rfl

/-- C8: with `max_length = none` no eviction ever happens: a sequence of
`add`s with pairwise-distinct keys starting from the empty registry
yields exactly as many entries as calls; moreover a single `add` of a
fresh key under the unbounded setting appends the entry and evicts
nothing. -/
theorem C8_unbounded_no_eviction (ps : List (Nat × Nat))
    (hnd : (ps.map Prod.fst).Nodup) :
    ((execOps { max_length := none, futures := [] }
        (ps.map fun p => Op.add p.1 p.2)).futures.length = ps.length)
    ∧ ∀ (c : FutureCollection Nat Nat) (k v : Nat), c.max_length = none →
        c.mem k = false → ((c.add k v).2).futures = c.futures ++ [(k, v)] := by
  constructor
  · rw [execOps_adds_unbounded ps { max_length := none, futures := [] } rfl
      (fun p _ => rfl) hnd]
    simp
  · intro c k v hm hk
    rw [add_futures_unbounded c k v hm hk]

theorem C8_unbounded_no_eviction_witness :
    ((execOps { max_length := none, futures := [] }
        ([(1, 10), (2, 20), (3, 30), (4, 40)].map fun p => Op.add p.1 p.2)).futures.length = 4)
    ∧ ((({ max_length := none, futures := [(1, 10)] } :
        FutureCollection Nat Nat).add 2 20).2).futures = [(1, 10), (2, 20)] := by
  have h := C8_unbounded_no_eviction [(1, 10), (2, 20), (3, 30), (4, 40)] (by decide)
  exact ⟨h.1, h.2 { max_length := none, futures := [(1, 10)] } 2 20 rfl (by decide)⟩

/-- C9 counterexample: the claim "contains(h) returns false immediately
after pop(k)" fails when the same handle is stored under two keys.  Here
handle `5` is added under keys `1` and `2`; `pop 1` returns the handle,
yet `contains 5` is still `true` afterwards, because `__contains__`
searches the stored values and the entry under key `2` remains. -/
theorem C9_containment_counterexample :
    (((((({ max_length := some 50, futures := [] } :
        FutureCollection Nat Nat).add 1 5).2).add 2 5).2).pop 1).1 = some 5
    ∧ FutureCollection.contains
        ((((((({ max_length := some 50, futures := [] } :
            FutureCollection Nat Nat).add 1 5).2).add 2 5).2).pop 1).2) 5 = true := by
  decide

/-- C9 as amended: `contains h` is true immediately after `add k h` when
no eviction removed the just-inserted entry — which, the entry being
appended at the end while eviction drops from the front, is exactly
whenever the bound is at least 1 (or unbounded), even when the add
evicts older entries from a full registry — and `contains h` is false
immediately after `pop k` provided `k` was the only key whose stored
handle equals `h` (containment is a search over stored values, not keys,
so a handle registered under several keys stays contained until all of
them are removed). -/
theorem C9_amended_containment (c : FutureCollection Nat Nat) (k h N : Nat) :
    (c.max_length = some N → 1 ≤ N → c.mem k = false →
        FutureCollection.contains ((c.add k h).2) h = true)
    ∧ (c.max_length = none → c.mem k = false →
        FutureCollection.contains ((c.add k h).2) h = true)
    ∧ ((c.futures.map Prod.fst).Nodup → c.lookup k = some h →
        (∀ p ∈ c.futures, p.2 = h → p.1 = k) →
        FutureCollection.contains ((c.pop k).2) h = false) := by
  refine ⟨?_, ?_, ?_⟩
  · intro hm hN hk
    have hfut := add_futures_bounded c k h N hm hk
    show containsVal ((c.add k h).2).futures h = true
    rw [hfut, containsVal_iff]
    refine ⟨(k, h), ?_, rfl⟩
    have hd : c.futures.length + 1 - N ≤ c.futures.length := by omega
    rw [List.drop_append_of_le_length hd]
    exact List.mem_append_right _ (List.mem_cons_self _ _)
  · intro hm hk
    rw [add_futures_unbounded c k h hm hk]
    show containsVal (c.futures ++ [(k, h)]) h = true
    rw [containsVal_iff]
    exact ⟨(k, h), List.mem_append_right _ (List.mem_cons_self _ _), rfl⟩
  · intro hnd _ huniq
    show containsVal (eraseKey c.futures k) h = false
    by_contra hc
    rw [Bool.not_eq_false, containsVal_iff] at hc
    obtain ⟨p, hp, hph⟩ := hc
    have hmem := mem_of_mem_eraseKey_nodup hnd hp
    exact hmem.2 (huniq p hmem.1 hph)

theorem C9_amended_containment_witness :
    FutureCollection.contains
      ((({ max_length := some 2, futures := [(1, 10), (2, 20)] } :
          FutureCollection Nat Nat).add 3 30).2) 30 = true
    ∧ FutureCollection.contains
      ((({ max_length := none, futures := [(1, 10)] } :
          FutureCollection Nat Nat).add 2 20).2) 20 = true
    ∧ FutureCollection.contains
      ((({ max_length := some 50, futures := [(1, 10), (2, 20)] } :
          FutureCollection Nat Nat).pop 2).2) 20 = false := by
  refine ⟨?_, ?_, ?_⟩
  · exact (C9_amended_containment { max_length := some 2, futures := [(1, 10), (2, 20)] }
      3 30 2).1 rfl (by decide) (by decide)
  · exact (C9_amended_containment { max_length := none, futures := [(1, 10)] }
      2 20 0).2.1 rfl (by decide)
  · exact (C9_amended_containment { max_length := some 50, futures := [(1, 10), (2, 20)] }
      2 20 50).2.2 (by decide) (by decide) (by decide)

/-- C10: the absent-key test precedes member resolution: on an absent key
the proxied call returns the sentinel for every member name, including
names no future exposes; consequently an `AttributeError` can only arise
when the key is present. -/
theorem C10_absence_check_precedes_resolution (c : FutureCollection Nat Nat) (k : Nat)
    (hk : c.mem k = false) :
    (∀ (getAttrFn : Nat → String → Option (Member Nat Nat)) (attrName : String)
        (args : List Nat),
        FutureCollection.future_attr getAttrFn c attrName k args =
          Except.ok InvokeResult.sentinel)
    ∧ (∀ (c' : FutureCollection Nat Nat) (k' : Nat)
        (getAttrFn : Nat → String → Option (Member Nat Nat)) (attrName : String)
        (args : List Nat),
        FutureCollection.future_attr getAttrFn c' attrName k' args =
          Except.error InvokeError.attributeError →
        c'.mem k' = true) := by
  constructor
  · intro getAttrFn attrName args
    have hl : c.lookup k = none := (lookupKey_eq_none_iff c.futures k).mpr hk
    unfold FutureCollection.future_attr
    rw [hl]
  · intro c' k' getAttrFn attrName args herr
    cases hl : c'.lookup k' with
    | none =>
      unfold FutureCollection.future_attr at herr
      rw [hl] at herr
      exact Except.noConfusion herr
    | some fut => exact memKey_of_lookupKey_some hl

theorem C10_absence_check_precedes_resolution_witness :
    FutureCollection.future_attr sampleGetAttr
      ({ max_length := some 50, futures := [(1, 10)] } : FutureCollection Nat Nat)
      "unknownOp" 2 [] = Except.ok InvokeResult.sentinel
    ∧ FutureCollection.mem
        ({ max_length := some 50, futures := [(1, 10)] } : FutureCollection Nat Nat) 1 = true := by
  have h := C10_absence_check_precedes_resolution
    { max_length := some 50, futures := [(1, 10)] } 2 (by decide)
  refine ⟨h.1 sampleGetAttr "unknownOp" [], ?_⟩
  exact h.2 { max_length := some 50, futures := [(1, 10)] } 1 sampleGetAttr "unknownOp" [] rfl

end FlaskExecutor
